import Mathlib

/-!
Verification development for the plaza-gossip on-chain DM system.

Shallow embedding of the Solidity contracts:
  * `UserRegistry` (contracts/UserRegistry.sol) — profiles, links, delegates,
    session public keys, ownership transfer, identity resolution;
  * `DMRegistry` (contracts/lib/Moderation.sol, second compilation unit) —
    conversation directory with a sorted-pair key;
  * `DMConversation` (scripts/deploy-channel-registry.js, second compilation
    unit) — per-pair append-only encrypted message ledger.

Addresses are modelled as `Nat` with `0` playing the role of `address(0)`;
byte strings are `List Nat`; `require(cond, msg)` becomes an
`Except String` failure carrying the literal revert string, and a failed
call leaves the pre-state untouched (EVM revert semantics).  `uint256`
arithmetic is `Nat` with the Solidity 0.8 checked-overflow revert made
explicit where it can fire.  `keccak256` over the sorted address pair is
modelled by the injective pairing `Nat.pair` (collision-freeness
idealised).
-/

namespace Plaza

/-- Pointwise update of a map modelling a Solidity `mapping`. -/
def upd {α : Type} (f : Nat → α) (k : Nat) (v : α) : Nat → α :=
  fun x => if x = k then v else f x

/-- A profile link, `UserRegistry.Link`. -/
structure Link where
  name : List Nat
  url : List Nat
deriving DecidableEq, Repr

instance : Inhabited Link := ⟨⟨[], []⟩⟩

/-- A profile record, `UserRegistry.Profile`; the zero value (all fields
defaulted, `exists = false`) is the Solidity mapping default. -/
structure Profile where
  owner : Nat
  displayName : List Nat
  bio : List Nat
  exist : Bool
deriving DecidableEq, Repr

instance : Inhabited Profile := ⟨⟨0, [], [], false⟩⟩

/-- Full storage of the `UserRegistry` contract. -/
structure URState where
  profiles : Nat → Profile
  profileLinks : Nat → List Link
  delegateToOwner : Nat → Nat
  isDelegate : Nat → Nat → Bool
  sessionPublicKeys : Nat → List Nat

/-- Freshly deployed `UserRegistry`: every mapping at its zero value. -/
def urInit : URState :=
  { profiles := fun _ => default
    profileLinks := fun _ => []
    delegateToOwner := fun _ => 0
    isDelegate := fun _ _ => false
    sessionPublicKeys := fun _ => [] }

/-- The `onlyProfileOwner` modifier. -/
def onlyProfileOwner (s : URState) (sender : Nat) : Except String Unit :=
  if (s.profiles sender).exist = false then .error "Profile does not exist"
  else if (s.profiles sender).owner ≠ sender then .error "Not profile owner"
  else .ok ()

/-- `UserRegistry.createProfile`. -/
def createProfile (s : URState) (sender : Nat) (displayName bio : List Nat) :
    Except String URState :=
  if (s.profiles sender).exist then .error "Profile already exists"
  else if displayName.length = 0 then .error "Display name required"
  else if displayName.length > 50 then .error "Display name too long"
  else if bio.length > 500 then .error "Bio too long"
  else .ok { s with
    profiles := upd s.profiles sender ⟨sender, displayName, bio, true⟩ }

/-- Hex digit byte used by `_addressToShortString`. -/
def hexDigit (n : Nat) : Nat := if n < 10 then 48 + n else 87 + n

/-- `UserRegistry._addressToShortString`: `"0x"` followed by the eight
low nibbles of the address, most significant first. -/
def addressToShortString (addr : Nat) : List Nat :=
  [48, 120] ++ (List.range 8).map (fun i => hexDigit ((addr >>> (4 * (7 - i))) % 16))

/-- `UserRegistry.createDefaultProfile`. -/
def createDefaultProfile (s : URState) (sender : Nat) : Except String URState :=
  if (s.profiles sender).exist then .error "Profile already exists"
  else .ok { s with
    profiles := upd s.profiles sender ⟨sender, addressToShortString sender, [], true⟩ }

/-- `UserRegistry.setDisplayName`. -/
def setDisplayName (s : URState) (sender : Nat) (displayName : List Nat) :
    Except String URState :=
  match onlyProfileOwner s sender with
  | .error e => .error e
  | .ok _ =>
  if displayName.length = 0 then .error "Display name required"
  else if displayName.length > 50 then .error "Display name too long"
  else .ok { s with
    profiles := upd s.profiles sender { s.profiles sender with displayName := displayName } }

/-- `UserRegistry.setBio`. -/
def setBio (s : URState) (sender : Nat) (bio : List Nat) : Except String URState :=
  match onlyProfileOwner s sender with
  | .error e => .error e
  | .ok _ =>
  if bio.length > 500 then .error "Bio too long"
  else .ok { s with
    profiles := upd s.profiles sender { s.profiles sender with bio := bio } }

/-- `UserRegistry.addLink`. -/
def addLink (s : URState) (sender : Nat) (name url : List Nat) : Except String URState :=
  match onlyProfileOwner s sender with
  | .error e => .error e
  | .ok _ =>
  if name.length = 0 then .error "Link name required"
  else if name.length > 50 then .error "Link name too long"
  else if url.length = 0 then .error "Link URL required"
  else if url.length > 200 then .error "Link URL too long"
  else if ¬ (s.profileLinks sender).length < 10 then .error "Max 10 links"
  else .ok { s with
    profileLinks := upd s.profileLinks sender (s.profileLinks sender ++ [⟨name, url⟩]) }

/-- `UserRegistry.removeLink`: move the last element into the removed slot,
then pop. -/
def removeLink (s : URState) (sender : Nat) (index : Nat) : Except String URState :=
  match onlyProfileOwner s sender with
  | .error e => .error e
  | .ok _ =>
  if ¬ index < (s.profileLinks sender).length then .error "Index out of bounds"
  else .ok { s with
    profileLinks := upd s.profileLinks sender
      (((s.profileLinks sender).set index
        ((s.profileLinks sender).getD ((s.profileLinks sender).length - 1) default)).dropLast) }

/-- `UserRegistry.clearLinks`. -/
def clearLinks (s : URState) (sender : Nat) : Except String URState :=
  match onlyProfileOwner s sender with
  | .error e => .error e
  | .ok _ =>
  .ok { s with profileLinks := upd s.profileLinks sender [] }

/-- `UserRegistry.addDelegate`. -/
def addDelegate (s : URState) (sender delegate : Nat) : Except String URState :=
  match onlyProfileOwner s sender with
  | .error e => .error e
  | .ok _ =>
  if delegate = 0 then .error "Invalid delegate address"
  else if delegate = sender then .error "Cannot delegate to self"
  else if s.isDelegate sender delegate then .error "Already a delegate"
  else if s.delegateToOwner delegate ≠ 0 then .error "Address is delegate for another profile"
  else .ok { s with
    isDelegate := fun o d => if o = sender ∧ d = delegate then true else s.isDelegate o d
    delegateToOwner := upd s.delegateToOwner delegate sender }

/-- `UserRegistry.removeDelegate`. -/
def removeDelegate (s : URState) (sender delegate : Nat) : Except String URState :=
  match onlyProfileOwner s sender with
  | .error e => .error e
  | .ok _ =>
  if ¬ s.isDelegate sender delegate then .error "Not a delegate"
  else .ok { s with
    isDelegate := fun o d => if o = sender ∧ d = delegate then false else s.isDelegate o d
    delegateToOwner := upd s.delegateToOwner delegate 0 }

/-- `UserRegistry.setSessionPublicKey`. -/
def setSessionPublicKey (s : URState) (sender : Nat) (key : List Nat) :
    Except String URState :=
  match onlyProfileOwner s sender with
  | .error e => .error e
  | .ok _ =>
  if key.length ≠ 64 then .error "Invalid public key length"
  else .ok { s with sessionPublicKeys := upd s.sessionPublicKeys sender key }

/-- `UserRegistry.clearSessionPublicKey`. -/
def clearSessionPublicKey (s : URState) (sender : Nat) : Except String URState :=
  match onlyProfileOwner s sender with
  | .error e => .error e
  | .ok _ =>
  .ok { s with sessionPublicKeys := upd s.sessionPublicKeys sender [] }

/-- `UserRegistry.transferProfileOwnership`: copy profile, links and (when
present) session key to `newOwner`, then delete the sender's copies.  All
`require`s run before any write, so a failure has no effect. -/
def transferProfileOwnership (s : URState) (sender newOwner : Nat) :
    Except String URState :=
  match onlyProfileOwner s sender with
  | .error e => .error e
  | .ok _ =>
  if newOwner = 0 then .error "Invalid new owner"
  else if (s.profiles newOwner).exist then .error "New owner has profile"
  else if s.delegateToOwner newOwner ≠ 0 then .error "New owner is delegate"
  else
    let p := s.profiles sender
    let profiles1 := upd s.profiles newOwner ⟨newOwner, p.displayName, p.bio, true⟩
    let links1 := upd s.profileLinks newOwner
      (s.profileLinks newOwner ++ s.profileLinks sender)
    let keys1 :=
      if (s.sessionPublicKeys sender).length > 0 then
        upd s.sessionPublicKeys newOwner (s.sessionPublicKeys sender)
      else s.sessionPublicKeys
    .ok { profiles := upd profiles1 sender default
          profileLinks := upd links1 sender []
          delegateToOwner := s.delegateToOwner
          isDelegate := s.isDelegate
          sessionPublicKeys := upd keys1 sender [] }

/-- `UserRegistry.resolveToOwner`: delegate binding first, then own
profile, else the zero address. -/
def resolveToOwner (s : URState) (addr : Nat) : Nat :=
  if s.delegateToOwner addr ≠ 0 then s.delegateToOwner addr
  else if (s.profiles addr).exist then addr
  else 0

/-- `UserRegistry.canActAs`. -/
def canActAs (s : URState) (actor profileOwner : Nat) : Bool :=
  if actor = profileOwner then true else s.isDelegate profileOwner actor

/-! ### Transition system over the registry

A `UROp` is one external call; `stepUR` runs it.  `ReachableUR` closes the
initial state under successful calls whose sender is a non-zero address
(the EVM never produces `msg.sender = address(0)`). -/

/-- One external call to `UserRegistry`, tagged with its `msg.sender`. -/
inductive UROp where
  | createProfile (sender : Nat) (displayName bio : List Nat)
  | createDefaultProfile (sender : Nat)
  | setDisplayName (sender : Nat) (displayName : List Nat)
  | setBio (sender : Nat) (bio : List Nat)
  | addLink (sender : Nat) (name url : List Nat)
  | removeLink (sender index : Nat)
  | clearLinks (sender : Nat)
  | addDelegate (sender delegate : Nat)
  | removeDelegate (sender delegate : Nat)
  | setSessionPublicKey (sender : Nat) (key : List Nat)
  | clearSessionPublicKey (sender : Nat)
  | transferProfileOwnership (sender newOwner : Nat)

/-- The `msg.sender` of a call. -/
def UROp.sender : UROp → Nat
  | .createProfile s _ _ => s
  | .createDefaultProfile s => s
  | .setDisplayName s _ => s
  | .setBio s _ => s
  | .addLink s _ _ => s
  | .removeLink s _ => s
  | .clearLinks s => s
  | .addDelegate s _ => s
  | .removeDelegate s _ => s
  | .setSessionPublicKey s _ => s
  | .clearSessionPublicKey s => s
  | .transferProfileOwnership s _ => s

/-- Execute one call against the registry state. -/
def stepUR (s : URState) : UROp → Except String URState
  | .createProfile sender dn bio => createProfile s sender dn bio
  | .createDefaultProfile sender => createDefaultProfile s sender
  | .setDisplayName sender dn => setDisplayName s sender dn
  | .setBio sender bio => setBio s sender bio
  | .addLink sender name url => addLink s sender name url
  | .removeLink sender index => removeLink s sender index
  | .clearLinks sender => clearLinks s sender
  | .addDelegate sender d => addDelegate s sender d
  | .removeDelegate sender d => removeDelegate s sender d
  | .setSessionPublicKey sender k => setSessionPublicKey s sender k
  | .clearSessionPublicKey sender => clearSessionPublicKey s sender
  | .transferProfileOwnership sender n => transferProfileOwnership s sender n

/-- States reachable from deployment by successful calls from non-zero
senders. -/
inductive ReachableUR : URState → Prop where
  | init : ReachableUR urInit
  | step {s s' : URState} {op : UROp} (hr : ReachableUR s)
      (hs : op.sender ≠ 0) (h : stepUR s op = .ok s') : ReachableUR s'

/-- Registry invariants that hold in every reachable state. -/
structure URInv (s : URState) : Prop where
  bindCons : ∀ o d, s.isDelegate o d = true → s.delegateToOwner d = o
  ownerNZ : ∀ o d, s.isDelegate o d = true → o ≠ 0
  delNZ : ∀ o d, s.isDelegate o d = true → d ≠ 0
  noSelf : ∀ o, s.isDelegate o o = false
  emptyLinks : ∀ a, (s.profiles a).exist = false → s.profileLinks a = []
  emptySession : ∀ a, (s.profiles a).exist = false → s.sessionPublicKeys a = []
  linksBound : ∀ a, (s.profileLinks a).length ≤ 10

/-! ### DMRegistry (conversation directory)

`contracts/lib/Moderation.sol`, second compilation unit.  `keccak256` of
the packed sorted address pair is modelled by the injective `Nat.pair`;
`conversationLookup` maps a pair hash to the conversation's address, with
`0` for "no conversation" exactly as `address(0)` does on chain.  A fresh
conversation contract gets the next address from a deployment counter, so
its address is non-zero and new. -/

/-- `DMRegistry._getPairHash`: hash of the two addresses sorted
ascending, so the key is order-independent. -/
def getPairHash (a b : Nat) : Nat :=
  if a < b then Nat.pair a b else Nat.pair b a

/-- Storage of the `DMRegistry` contract plus a deployment counter
supplying fresh contract addresses. -/
structure DMRegState where
  userConversations : Nat → List Nat
  conversationLookup : Nat → Nat
  nonce : Nat

/-- Freshly deployed `DMRegistry`. -/
def dmInit : DMRegState :=
  { userConversations := fun _ => []
    conversationLookup := fun _ => 0
    nonce := 0 }

/-- `DMRegistry.createConversation`: checks on the raw `msg.sender` and
`otherUser`, duplicate check on the sorted pair hash, then deploys a
`DMConversation` (whose constructor re-checks the participants) and
indexes it under both addresses. -/
def createConversation (s : DMRegState) (sender otherUser : Nat) :
    Except String (Nat × DMRegState) :=
  if otherUser = 0 then .error "Invalid user address"
  else if otherUser = sender then .error "Cannot DM yourself"
  else if s.conversationLookup (getPairHash sender otherUser) ≠ 0 then
    .error "Conversation already exists"
  else if sender = 0 then .error "Invalid participant1"
  else
    let addr := s.nonce + 1
    let uc1 := upd s.userConversations sender (s.userConversations sender ++ [addr])
    let uc2 := upd uc1 otherUser (uc1 otherUser ++ [addr])
    .ok (addr,
      { userConversations := uc2
        conversationLookup := upd s.conversationLookup (getPairHash sender otherUser) addr
        nonce := addr })

/-- `DMRegistry.getConversation`. -/
def getConversation (s : DMRegState) (user1 user2 : Nat) : Nat :=
  s.conversationLookup (getPairHash user1 user2)

/-- `DMRegistry.conversationExists`. -/
def conversationExists (s : DMRegState) (user1 user2 : Nat) : Bool :=
  s.conversationLookup (getPairHash user1 user2) ≠ 0

/-- `DMRegistry.getConversations`. -/
def getConversations (s : DMRegState) (user : Nat) : List Nat :=
  s.userConversations user

/-! ### DMConversation (per-pair message ledger)

`scripts/deploy-channel-registry.js`, second compilation unit.  The
conversation holds the `UserRegistry` it resolves delegates against; we
pass the registry state explicitly.  `block.timestamp` is an explicit
parameter. -/

/-- `DMConversation.EncryptedMessage`. -/
structure EncryptedMessage where
  senderOwner : Nat
  senderAddress : Nat
  encryptedContent : List Nat
  timestamp : Nat
deriving DecidableEq, Repr

instance : Inhabited EncryptedMessage := ⟨⟨0, 0, [], 0⟩⟩

/-- Storage of one `DMConversation` contract (the two immutable
participants and the message array). -/
structure DMConv where
  participant1 : Nat
  participant2 : Nat
  messages : List EncryptedMessage
deriving DecidableEq, Repr

/-- `DMConversation._resolveSender`: the delegating owner when the sender
is a registered delegate, otherwise the sender itself. -/
def resolveSender (reg : URState) (sender : Nat) : Nat :=
  if reg.delegateToOwner sender ≠ 0 then reg.delegateToOwner sender else sender

/-- `2^256`, the modulus of Solidity's `uint256`. -/
def U256 : Nat := 2 ^ 256

/-- `DMConversation.postMessage` under the `onlyParticipants` modifier.
The modifier's participant check runs before the body's length checks. -/
def postMessage (reg : URState) (c : DMConv) (sender : Nat)
    (encryptedContent : List Nat) (timestamp : Nat) :
    Except String (Nat × DMConv) :=
  if ¬ (resolveSender reg sender = c.participant1 ∨
        resolveSender reg sender = c.participant2) then
    .error "Not a participant"
  else if encryptedContent.length = 0 then .error "Message cannot be empty"
  else if encryptedContent.length > 2000 then .error "Message too long"
  else
    .ok (c.messages.length,
      { c with messages := c.messages ++
          [⟨resolveSender reg sender, sender, encryptedContent, timestamp⟩] })

/-- `DMConversation.getMessage`: hard failure when the index is out of
range. -/
def getMessage (c : DMConv) (index : Nat) : Except String EncryptedMessage :=
  if ¬ index < c.messages.length then .error "Message does not exist"
  else .ok (c.messages.getD index default)

/-- `DMConversation.getMessages`: empty result for an out-of-range start,
clamped end; `startIndex + count` is a checked `uint256` addition and
reverts on overflow. -/
def getMessages (c : DMConv) (startIndex count : Nat) :
    Except String (List EncryptedMessage) :=
  if startIndex ≥ c.messages.length then .ok []
  else if startIndex + count ≥ U256 then .error "arithmetic overflow"
  else .ok ((c.messages.drop startIndex).take
      (min (startIndex + count) c.messages.length - startIndex))

/-- `DMConversation.getLatestMessages`: clamp `count` to the total, then
return the suffix of that length. -/
def getLatestMessages (c : DMConv) (count : Nat) : List EncryptedMessage :=
  c.messages.drop (c.messages.length - min count c.messages.length)

/-- `DMConversation.isParticipant`. -/
def isParticipant (reg : URState) (c : DMConv) (addr : Nat) : Bool :=
  resolveSender reg addr = c.participant1 ∨ resolveSender reg addr = c.participant2

/-- `DMConversation.getMessageCount`. -/
def getMessageCount (c : DMConv) : Nat := c.messages.length

/-! ### KeyExchangeEngine (spec-modelled)

The client-side encryption engine (`crypto.ts`, ECDH over secp256k1 plus
AES-256-GCM) is not part of the sources under `src/`; only the spec and
the README describe it.  The definitions below are therefore modelled
from the spec: ECDH is discrete exponentiation modulo a fixed constant
(commutative, which is the property the spec relies on), the KDF step is
an injective function on the shared secret, the AEAD cipher is a
keystream XOR with an authentication tag over (key, nonce, ciphertext),
and the blob framing is nonce ∥ tag ∥ ciphertext.  The tag's
collision-resistance is idealised as injectivity (tag positions hold
unbounded naturals), which formalises the spec's "an authentication
failure must surface as a distinct decryption error". -/

/-- Modelled from the spec: group modulus of the ECDH instance. -/
def ecdhModulus : Nat := 2 ^ 256 - 189

/-- Modelled from the spec: public half of an ECDH keypair. -/
def pubKey (priv : Nat) : Nat := 7 ^ priv % ecdhModulus

/-- Modelled from the spec: raw ECDH shared secret
`counterpartPublic ^ localPrivate`. -/
def sharedSecret (priv pub : Nat) : Nat := pub ^ priv % ecdhModulus

/-- Modelled from the spec: the key-derivation step applied to the raw
shared secret before use as a cipher key. -/
def kdf (secret : Nat) : Nat := Nat.pair secret 0

/-- Modelled from the spec: keystream byte `i` of the cipher. -/
def keystream (key nonce i : Nat) : Nat := (key + nonce + i) % 256

/-- XOR a keystream over a byte sequence, starting at position `i`;
applying it twice restores the input. -/
def maskBytes (key nonce : Nat) : List Nat → Nat → List Nat
  | [], _ => []
  | b :: t, i => (b ^^^ keystream key nonce i) :: maskBytes key nonce t (i + 1)

/-- Injective encoding of a byte sequence into one natural. -/
def encodeBytes : List Nat → Nat
  | [] => 0
  | b :: t => Nat.pair b (encodeBytes t) + 1

/-- Modelled from the spec: the authentication tag binding key, nonce and
ciphertext. -/
def mkTag (key nonce : Nat) (ct : List Nat) : Nat :=
  Nat.pair key (Nat.pair nonce (encodeBytes ct))

/-- Modelled from the spec: `encrypt(plaintext, myPriv, theirPub)` with a
fresh `nonce`; the output blob is nonce ∥ tag ∥ ciphertext. -/
def encryptBytes (pt : List Nat) (myPriv theirPub nonce : Nat) : List Nat :=
  let key := kdf (sharedSecret myPriv theirPub)
  let ct := maskBytes key nonce pt 0
  nonce :: mkTag key nonce ct :: ct

/-- Modelled from the spec: `decrypt(blob, myPriv, theirPub)`; re-derives
the shared secret, verifies the tag, and fails with the distinct
"cannot decrypt" result (`none`) on any mismatch. -/
def decryptBytes (blob : List Nat) (myPriv theirPub : Nat) : Option (List Nat) :=
  match blob with
  | nonce :: tag :: ct =>
    let key := kdf (sharedSecret myPriv theirPub)
    if tag = mkTag key nonce ct then some (maskBytes key nonce ct 0) else none
  | _ => none

/-! ### Concrete example states

Small executable runs used as witnesses and counterexamples.  `stepD`
applies a call and keeps the old state when the call reverts; every
`exS*` state is produced only through successful calls (established in
the reachability lemmas below). -/

/-- Apply a registry call, keeping the old state on revert. -/
def stepD (s : URState) (op : UROp) : URState :=
  (stepUR s op).toOption.getD s

/-- Address 1 creates a profile. -/
def exS1 : URState := stepD urInit (.createProfile 1 [65] [66])

/-- Address 2 creates a profile. -/
def exS2 : URState := stepD exS1 (.createProfile 2 [67] [])

/-- Owner 1 registers delegate 3. -/
def exS3 : URState := stepD exS2 (.addDelegate 1 3)

/-- Owner 1 adds one link. -/
def exS4 : URState := stepD exS3 (.addLink 1 [76] [85])

/-- Owner 1 adds a second link (on top of `exS4`). -/
def exS4b : URState := stepD exS4 (.addLink 1 [77] [86])

/-- Owner 1 swap-removes the link at index 0 (from `exS4b`). -/
def exS8 : URState := stepD exS4b (.removeLink 1 0)

/-- Owner 1 publishes a 64-byte session public key. -/
def exS5 : URState := stepD exS4 (.setSessionPublicKey 1 (List.replicate 64 7))

/-- Owner 2 registers delegate 1 — allowed although 1 owns a profile. -/
def exS6 : URState := stepD exS5 (.addDelegate 2 1)

/-- Owner 1 transfers its profile to the fresh address 5. -/
def exS7 : URState := stepD exS5 (.transferProfileOwnership 1 5)

/-- Conversation between the two registered owners, created by owner 1. -/
def dmEx : Nat × DMRegState := (createConversation dmInit 1 2).toOption.getD (0, dmInit)

/-- Conversation created by the literal sender 3, a delegate of owner 1. -/
def dmEx2 : Nat × DMRegState := (createConversation dmInit 3 2).toOption.getD (0, dmInit)

/-- An empty conversation between participants 1 and 2. -/
def conv0 : DMConv := ⟨1, 2, []⟩

/-- Apply `postMessage`, keeping the old conversation on revert. -/
def postD (reg : URState) (c : DMConv) (sender : Nat) (content : List Nat)
    (t : Nat) : DMConv :=
  ((postMessage reg c sender content t).toOption.getD (0, c)).2

/-- One message posted by delegate 3 on behalf of participant 1. -/
def conv1 : DMConv := postD exS3 conv0 3 [10] 100

/-- A second message posted by participant 2. -/
def conv2 : DMConv := postD exS3 conv1 2 [11] 101

theorem upd_same {α : Type} (f : Nat → α) (k : Nat) (v : α) : upd f k v k = v := by
  simp [upd]

theorem upd_ne {α : Type} (f : Nat → α) (k : Nat) (v : α) {x : Nat} (h : x ≠ k) :
    upd f k v x = f x := by
  simp [upd, h]

theorem onlyProfileOwner_ok {s : URState} {sender : Nat} {u : Unit}
    (h : onlyProfileOwner s sender = .ok u) :
    (s.profiles sender).exist = true ∧ (s.profiles sender).owner = sender := by
  unfold onlyProfileOwner at h
  split at h
  · exact Except.noConfusion h
  · split at h
    · exact Except.noConfusion h
    · next h1 h2 =>
        exact ⟨by simpa using h1, by simpa using h2⟩

theorem urInv_createProfile {s s' : URState} {sender : Nat} {dn bio : List Nat}
    (hI : URInv s) (h : createProfile s sender dn bio = .ok s') : URInv s' := by
  unfold createProfile at h
  split at h
  · exact Except.noConfusion h
  split at h
  · exact Except.noConfusion h
  split at h
  · exact Except.noConfusion h
  split at h
  · exact Except.noConfusion h
  injection h with h; subst h
  refine ⟨hI.bindCons, hI.ownerNZ, hI.delNZ, hI.noSelf, ?_, ?_, hI.linksBound⟩
  · intro a ha
    by_cases hc : a = sender
    · subst hc; simp [upd] at ha
    · exact hI.emptyLinks a (by simpa [upd, hc] using ha)
  · intro a ha
    by_cases hc : a = sender
    · subst hc; simp [upd] at ha
    · exact hI.emptySession a (by simpa [upd, hc] using ha)

theorem urInv_createDefaultProfile {s s' : URState} {sender : Nat}
    (hI : URInv s) (h : createDefaultProfile s sender = .ok s') : URInv s' := by
  unfold createDefaultProfile at h
  split at h
  · exact Except.noConfusion h
  injection h with h; subst h
  refine ⟨hI.bindCons, hI.ownerNZ, hI.delNZ, hI.noSelf, ?_, ?_, hI.linksBound⟩
  · intro a ha
    by_cases hc : a = sender
    · subst hc; simp [upd] at ha
    · exact hI.emptyLinks a (by simpa [upd, hc] using ha)
  · intro a ha
    by_cases hc : a = sender
    · subst hc; simp [upd] at ha
    · exact hI.emptySession a (by simpa [upd, hc] using ha)

theorem urInv_setDisplayName {s s' : URState} {sender : Nat} {dn : List Nat}
    (hI : URInv s) (h : setDisplayName s sender dn = .ok s') : URInv s' := by
  unfold setDisplayName at h
  split at h
  · exact Except.noConfusion h
  next u hown =>
  obtain ⟨hex, -⟩ := onlyProfileOwner_ok hown
  split at h
  · exact Except.noConfusion h
  split at h
  · exact Except.noConfusion h
  injection h with h; subst h
  refine ⟨hI.bindCons, hI.ownerNZ, hI.delNZ, hI.noSelf, ?_, ?_, hI.linksBound⟩
  · intro a ha
    by_cases hc : a = sender
    · subst hc; simp [upd, hex] at ha
    · exact hI.emptyLinks a (by simpa [upd, hc] using ha)
  · intro a ha
    by_cases hc : a = sender
    · subst hc; simp [upd, hex] at ha
    · exact hI.emptySession a (by simpa [upd, hc] using ha)

theorem urInv_setBio {s s' : URState} {sender : Nat} {bio : List Nat}
    (hI : URInv s) (h : setBio s sender bio = .ok s') : URInv s' := by
  unfold setBio at h
  split at h
  · exact Except.noConfusion h
  next u hown =>
  obtain ⟨hex, -⟩ := onlyProfileOwner_ok hown
  split at h
  · exact Except.noConfusion h
  injection h with h; subst h
  refine ⟨hI.bindCons, hI.ownerNZ, hI.delNZ, hI.noSelf, ?_, ?_, hI.linksBound⟩
  · intro a ha
    by_cases hc : a = sender
    · subst hc; simp [upd, hex] at ha
    · exact hI.emptyLinks a (by simpa [upd, hc] using ha)
  · intro a ha
    by_cases hc : a = sender
    · subst hc; simp [upd, hex] at ha
    · exact hI.emptySession a (by simpa [upd, hc] using ha)

theorem urInv_addLink {s s' : URState} {sender : Nat} {name url : List Nat}
    (hI : URInv s) (h : addLink s sender name url = .ok s') : URInv s' := by
  unfold addLink at h
  split at h
  · exact Except.noConfusion h
  next u hown =>
  obtain ⟨hex, -⟩ := onlyProfileOwner_ok hown
  split at h
  · exact Except.noConfusion h
  split at h
  · exact Except.noConfusion h
  split at h
  · exact Except.noConfusion h
  split at h
  · exact Except.noConfusion h
  split at h
  · exact Except.noConfusion h
  next hroom =>
  rw [not_not] at hroom
  injection h with h; subst h
  refine ⟨hI.bindCons, hI.ownerNZ, hI.delNZ, hI.noSelf, ?_, hI.emptySession, ?_⟩
  · intro a ha
    by_cases hc : a = sender
    · rw [hc, hex] at ha; cases ha
    · simpa [upd, hc] using hI.emptyLinks a ha
  · intro a
    by_cases hc : a = sender
    · dsimp only
      rw [hc, upd_same, List.length_append]
      simp only [List.length_singleton]
      omega
    · simpa [upd, hc] using hI.linksBound a

theorem urInv_removeLink {s s' : URState} {sender index : Nat}
    (hI : URInv s) (h : removeLink s sender index = .ok s') : URInv s' := by
  unfold removeLink at h
  split at h
  · exact Except.noConfusion h
  next u hown =>
  obtain ⟨hex, -⟩ := onlyProfileOwner_ok hown
  split at h
  · exact Except.noConfusion h
  injection h with h; subst h
  refine ⟨hI.bindCons, hI.ownerNZ, hI.delNZ, hI.noSelf, ?_, hI.emptySession, ?_⟩
  · intro a ha
    by_cases hc : a = sender
    · subst hc; simp [hex] at ha
    · simpa [upd, hc] using hI.emptyLinks a ha
  · intro a
    by_cases hc : a = sender
    · dsimp only
      rw [hc, upd_same, List.length_dropLast, List.length_set]
      have := hI.linksBound sender
      omega
    · simpa [upd, hc] using hI.linksBound a

theorem urInv_clearLinks {s s' : URState} {sender : Nat}
    (hI : URInv s) (h : clearLinks s sender = .ok s') : URInv s' := by
  unfold clearLinks at h
  split at h
  · exact Except.noConfusion h
  next u hown =>
  injection h with h; subst h
  refine ⟨hI.bindCons, hI.ownerNZ, hI.delNZ, hI.noSelf, ?_, hI.emptySession, ?_⟩
  · intro a ha
    by_cases hc : a = sender
    · subst hc; simp [upd]
    · simpa [upd, hc] using hI.emptyLinks a ha
  · intro a
    by_cases hc : a = sender
    · subst hc; simp [upd]
    · simpa [upd, hc] using hI.linksBound a

theorem urInv_addDelegate {s s' : URState} {sender d : Nat} (hI : URInv s)
    (hs : sender ≠ 0) (h : addDelegate s sender d = .ok s') : URInv s' := by
  unfold addDelegate at h
  split at h
  · exact Except.noConfusion h
  next u hown =>
  split at h
  · exact Except.noConfusion h
  rename_i hd0
  split at h
  · exact Except.noConfusion h
  rename_i hds
  split at h
  · exact Except.noConfusion h
  rename_i hnot
  split at h
  · exact Except.noConfusion h
  rename_i hfree
  rw [not_not] at hfree
  injection h with h; subst h
  refine ⟨?_, ?_, ?_, ?_, hI.emptyLinks, hI.emptySession, hI.linksBound⟩
  · intro o d' hid
    by_cases hc : o = sender ∧ d' = d
    · obtain ⟨rfl, rfl⟩ := hc
      simp [upd]
    · simp only [if_neg hc] at hid
      have hb := hI.bindCons o d' hid
      have : d' ≠ d := by
        intro hdd; subst hdd
        exact hI.ownerNZ o d' hid (by rw [← hb, hfree])
      simpa [upd_ne _ _ _ this] using hb
  · intro o d' hid
    by_cases hc : o = sender ∧ d' = d
    · exact hc.1 ▸ hs
    · exact hI.ownerNZ o d' (by simpa [if_neg hc] using hid)
  · intro o d' hid
    by_cases hc : o = sender ∧ d' = d
    · exact hc.2 ▸ hd0
    · exact hI.delNZ o d' (by simpa [if_neg hc] using hid)
  · intro o
    by_cases hc : o = sender ∧ o = d
    · exact absurd (hc.2.symm.trans hc.1) hds
    · simpa [if_neg hc] using hI.noSelf o

theorem urInv_removeDelegate {s s' : URState} {sender d : Nat} (hI : URInv s)
    (h : removeDelegate s sender d = .ok s') : URInv s' := by
  unfold removeDelegate at h
  split at h
  · exact Except.noConfusion h
  next u hown =>
  split at h
  · exact Except.noConfusion h
  rename_i hdel
  rw [not_not] at hdel
  injection h with h; subst h
  refine ⟨?_, ?_, ?_, ?_, hI.emptyLinks, hI.emptySession, hI.linksBound⟩
  · intro o d' hid
    by_cases hc : o = sender ∧ d' = d
    · simp [if_pos hc] at hid
    · simp only [if_neg hc] at hid
      have hb := hI.bindCons o d' hid
      have : d' ≠ d := by
        intro hdd; subst hdd
        exact hc ⟨by rw [← hb, hI.bindCons sender d' hdel], rfl⟩
      simpa [upd_ne _ _ _ this] using hb
  · intro o d' hid
    by_cases hc : o = sender ∧ d' = d
    · simp [if_pos hc] at hid
    · exact hI.ownerNZ o d' (by simpa [if_neg hc] using hid)
  · intro o d' hid
    by_cases hc : o = sender ∧ d' = d
    · simp [if_pos hc] at hid
    · exact hI.delNZ o d' (by simpa [if_neg hc] using hid)
  · intro o
    by_cases hc : o = sender ∧ o = d
    · simp [if_pos hc]
    · simpa [if_neg hc] using hI.noSelf o

theorem urInv_setSessionPublicKey {s s' : URState} {sender : Nat} {key : List Nat}
    (hI : URInv s) (h : setSessionPublicKey s sender key = .ok s') : URInv s' := by
  unfold setSessionPublicKey at h
  split at h
  · exact Except.noConfusion h
  next u hown =>
  obtain ⟨hex, -⟩ := onlyProfileOwner_ok hown
  split at h
  · exact Except.noConfusion h
  injection h with h; subst h
  refine ⟨hI.bindCons, hI.ownerNZ, hI.delNZ, hI.noSelf, hI.emptyLinks, ?_, hI.linksBound⟩
  · intro a ha
    by_cases hc : a = sender
    · subst hc; simp [hex] at ha
    · simpa [upd, hc] using hI.emptySession a ha

theorem urInv_clearSessionPublicKey {s s' : URState} {sender : Nat}
    (hI : URInv s) (h : clearSessionPublicKey s sender = .ok s') : URInv s' := by
  unfold clearSessionPublicKey at h
  split at h
  · exact Except.noConfusion h
  next u hown =>
  injection h with h; subst h
  refine ⟨hI.bindCons, hI.ownerNZ, hI.delNZ, hI.noSelf, hI.emptyLinks, ?_, hI.linksBound⟩
  · intro a ha
    by_cases hc : a = sender
    · subst hc; simp [upd]
    · simpa [upd, hc] using hI.emptySession a ha

theorem urInv_transferProfileOwnership {s s' : URState} {sender newOwner : Nat}
    (hI : URInv s) (h : transferProfileOwnership s sender newOwner = .ok s') :
    URInv s' := by
  unfold transferProfileOwnership at h
  split at h
  · exact Except.noConfusion h
  next u hown =>
  obtain ⟨hex, -⟩ := onlyProfileOwner_ok hown
  split at h
  · exact Except.noConfusion h
  split at h
  · exact Except.noConfusion h
  rename_i hnex
  split at h
  · exact Except.noConfusion h
  injection h with h; subst h
  have hnexf : (s.profiles newOwner).exist = false := by
    cases hb : (s.profiles newOwner).exist
    · rfl
    · exact absurd hb hnex
  have hsn : sender ≠ newOwner := fun hc => by rw [hc, hnexf] at hex; cases hex
  refine ⟨hI.bindCons, hI.ownerNZ, hI.delNZ, hI.noSelf, ?_, ?_, ?_⟩
  · intro a ha
    by_cases hc : a = sender
    · subst hc; simp [upd]
    · by_cases hn : a = newOwner
      · subst hn; simp [upd, hc] at ha
      · simpa [upd, hc, hn] using hI.emptyLinks a (by simpa [upd, hc, hn] using ha)
  · intro a ha
    by_cases hc : a = sender
    · subst hc; simp [upd]
    · by_cases hn : a = newOwner
      · subst hn; simp [upd, hc] at ha
      · have := hI.emptySession a (by simpa [upd, hc, hn] using ha)
        split
        · simpa [upd, hc, hn] using this
        · simpa [upd, hc] using this
  · intro a
    by_cases hc : a = sender
    · dsimp only
      rw [hc, upd_same]; simp
    · by_cases hn : a = newOwner
      · dsimp only
        rw [hn, upd_ne _ _ _ (Ne.symm hsn), upd_same,
          hI.emptyLinks newOwner hnexf]
        simpa using hI.linksBound sender
      · simpa [upd, hc, hn] using hI.linksBound a

/-- One successful call from a non-zero sender preserves the registry
invariants. -/
theorem urInv_step {s s' : URState} {op : UROp} (hI : URInv s)
    (hs : op.sender ≠ 0) (h : stepUR s op = .ok s') : URInv s' := by
  cases op with
  | createProfile sender dn bio => exact urInv_createProfile hI h
  | createDefaultProfile sender => exact urInv_createDefaultProfile hI h
  | setDisplayName sender dn => exact urInv_setDisplayName hI h
  | setBio sender bio => exact urInv_setBio hI h
  | addLink sender name url => exact urInv_addLink hI h
  | removeLink sender index => exact urInv_removeLink hI h
  | clearLinks sender => exact urInv_clearLinks hI h
  | addDelegate sender d => exact urInv_addDelegate hI (by simpa [UROp.sender] using hs) h
  | removeDelegate sender d => exact urInv_removeDelegate hI h
  | setSessionPublicKey sender k => exact urInv_setSessionPublicKey hI h
  | clearSessionPublicKey sender => exact urInv_clearSessionPublicKey hI h
  | transferProfileOwnership sender n => exact urInv_transferProfileOwnership hI h

theorem urInv_init : URInv urInit := by
  refine ⟨?_, ?_, ?_, ?_, ?_, ?_, ?_⟩ <;> intro a <;> simp [urInit]

/-- Every reachable registry state satisfies the invariants. -/
theorem urInv_reachable {s : URState} (h : ReachableUR s) : URInv s := by
  induction h with
  | init => exact urInv_init
  | step hr hs h ih => exact urInv_step ih hs h

theorem getPairHash_comm (a b : Nat) : getPairHash a b = getPairHash b a := by
  unfold getPairHash
  rcases Nat.lt_trichotomy a b with h | h | h
  · rw [if_pos h, if_neg (Nat.lt_asymm h)]
  · subst h; rfl
  · rw [if_neg (Nat.lt_asymm h), if_pos h]

theorem sharedSecret_comm (a b : Nat) :
    sharedSecret a (pubKey b) = sharedSecret b (pubKey a) := by
  unfold sharedSecret pubKey
  rw [← Nat.pow_mod, ← Nat.pow_mod, ← pow_mul, ← pow_mul, Nat.mul_comm]

theorem maskBytes_maskBytes (key nonce : Nat) (l : List Nat) (i : Nat) :
    maskBytes key nonce (maskBytes key nonce l i) i = l := by
  induction l generalizing i with
  | nil => rfl
  | cons b t ih =>
    simp only [maskBytes]
    rw [ih, Nat.xor_assoc, Nat.xor_self, Nat.xor_zero]

theorem reach_exS1 : ReachableUR exS1 :=
  @ReachableUR.step urInit exS1 (.createProfile 1 [65] [66])
    ReachableUR.init (by decide) rfl

theorem reach_exS2 : ReachableUR exS2 :=
  @ReachableUR.step exS1 exS2 (.createProfile 2 [67] []) reach_exS1 (by decide) rfl

theorem reach_exS3 : ReachableUR exS3 :=
  @ReachableUR.step exS2 exS3 (.addDelegate 1 3) reach_exS2 (by decide) rfl

theorem reach_exS4 : ReachableUR exS4 :=
  @ReachableUR.step exS3 exS4 (.addLink 1 [76] [85]) reach_exS3 (by decide) rfl

theorem reach_exS4b : ReachableUR exS4b :=
  @ReachableUR.step exS4 exS4b (.addLink 1 [77] [86]) reach_exS4 (by decide) rfl

theorem reach_exS5 : ReachableUR exS5 :=
  @ReachableUR.step exS4 exS5 (.setSessionPublicKey 1 (List.replicate 64 7))
    reach_exS4 (by decide) rfl

theorem reach_exS6 : ReachableUR exS6 :=
  @ReachableUR.step exS5 exS6 (.addDelegate 2 1) reach_exS5 (by decide) rfl

theorem reach_exS7 : ReachableUR exS7 :=
  @ReachableUR.step exS5 exS7 (.transferProfileOwnership 1 5) reach_exS5 (by decide) rfl

theorem encodeBytes_inj : ∀ {l₁ l₂ : List Nat},
    encodeBytes l₁ = encodeBytes l₂ → l₁ = l₂ := by
  intro l₁
  induction l₁ with
  | nil =>
    intro l₂ h
    cases l₂ with
    | nil => rfl
    | cons b t => exact absurd h.symm (by simp [encodeBytes])
  | cons b t ih =>
    intro l₂ h
    cases l₂ with
    | nil => exact absurd h (by simp [encodeBytes])
    | cons b' t' =>
      simp only [encodeBytes, Nat.add_right_cancel_iff, Nat.pair_eq_pair] at h
      rw [h.1, ih h.2]

/-! ### Claim theorems -/

/-- Claim C1: for every pair of distinct non-zero identities A and B,
conversation creation is order-independent and mutually exclusive: after
`createConversation(A,B)` succeeds, a subsequent `createConversation(B,A)`
(or `createConversation(A,B)`) fails with the "Conversation already
exists" revert (the spec's ConflictError), and for every pair of
addresses `getConversation(A,B) = getConversation(B,A)` — the pair key
sorts the two participant addresses before hashing, so at most one
conversation exists per unordered pair. -/
theorem C1_conversation_pair_exclusive (s : DMRegState) (A B : Nat)
    (hA : A ≠ 0) (hB : B ≠ 0) (hAB : A ≠ B) (r : Nat × DMRegState)
    (h : createConversation s A B = .ok r) :
    createConversation r.2 B A = .error "Conversation already exists" ∧
    createConversation r.2 A B = .error "Conversation already exists" ∧
    getConversation r.2 A B = r.1 ∧ getConversation r.2 B A = r.1 ∧
    r.1 ≠ 0 ∧
    (∀ t : DMRegState, ∀ x y : Nat, getConversation t x y = getConversation t y x) := by
  unfold createConversation at h
  split at h
  · exact Except.noConfusion h
  split at h
  · exact Except.noConfusion h
  split at h
  · exact Except.noConfusion h
  injection h with h; subst h
  dsimp only
  refine ⟨?_, ?_, ?_, ?_, Nat.succ_ne_zero s.nonce, ?_⟩
  · unfold createConversation
    rw [if_neg hA, if_neg hAB]
    dsimp only
    rw [getPairHash_comm B A, upd_same, if_pos (Nat.succ_ne_zero s.nonce)]
  · unfold createConversation
    rw [if_neg hB, if_neg (fun hc => hAB hc.symm)]
    dsimp only
    rw [upd_same, if_pos (Nat.succ_ne_zero s.nonce)]
  · unfold getConversation
    dsimp only
    rw [upd_same]
  · unfold getConversation
    dsimp only
    rw [getPairHash_comm B A, upd_same]
  · intro t x y
    unfold getConversation
    rw [getPairHash_comm]

theorem onlyProfileOwner_eq_ok {s : URState} {sender : Nat}
    (hex : (s.profiles sender).exist = true)
    (how : (s.profiles sender).owner = sender) :
    onlyProfileOwner s sender = .ok () := by
  unfold onlyProfileOwner
  simp [hex, how]

/-- Claim C2: `transferProfileOwnership(newOwner)`, called by a profile
owner, is atomic: it fails (and, by revert semantics, changes nothing)
exactly when newOwner is the zero address, already owns a profile, or is
a delegate of another profile; on success the old owner is left with no
profile, no links and no session key, and newOwner owns a profile whose
displayName, bio, link list and session public key are exactly the old
owner's former values (in reachable states an address without a profile
has no residual links or session key, so the copied values are exact). -/
theorem C2_transfer_atomic (s : URState) (sender newOwner : Nat)
    (hreach : ReachableUR s)
    (hex : (s.profiles sender).exist = true)
    (how : (s.profiles sender).owner = sender) :
    ((∃ e, transferProfileOwnership s sender newOwner = .error e) ↔
      (newOwner = 0 ∨ (s.profiles newOwner).exist = true ∨
        s.delegateToOwner newOwner ≠ 0)) ∧
    (∀ s', transferProfileOwnership s sender newOwner = .ok s' →
      (s'.profiles sender).exist = false ∧
      s'.profileLinks sender = [] ∧
      s'.sessionPublicKeys sender = [] ∧
      (s'.profiles newOwner).exist = true ∧
      (s'.profiles newOwner).owner = newOwner ∧
      (s'.profiles newOwner).displayName = (s.profiles sender).displayName ∧
      (s'.profiles newOwner).bio = (s.profiles sender).bio ∧
      s'.profileLinks newOwner = s.profileLinks sender ∧
      s'.sessionPublicKeys newOwner = s.sessionPublicKeys sender) := by
  have hmod := onlyProfileOwner_eq_ok hex how
  constructor
  · unfold transferProfileOwnership
    rw [hmod]
    constructor
    · rintro ⟨e, he⟩
      by_cases h0 : newOwner = 0
      · exact Or.inl h0
      rw [if_neg h0] at he
      by_cases hb : (s.profiles newOwner).exist = true
      · exact Or.inr (Or.inl hb)
      rw [if_neg hb] at he
      by_cases h2 : s.delegateToOwner newOwner ≠ 0
      · exact Or.inr (Or.inr h2)
      rw [if_neg h2] at he
      exact Except.noConfusion he
    · intro hc
      by_cases h0 : newOwner = 0
      · exact ⟨"Invalid new owner", by rw [if_pos h0]⟩
      by_cases hb : (s.profiles newOwner).exist = true
      · exact ⟨"New owner has profile", by rw [if_neg h0, if_pos hb]⟩
      by_cases h2 : s.delegateToOwner newOwner ≠ 0
      · exact ⟨"New owner is delegate", by rw [if_neg h0, if_neg hb, if_pos h2]⟩
      rcases hc with h | h | h
      · exact absurd h h0
      · exact absurd h hb
      · exact absurd h h2
  · intro s' h
    unfold transferProfileOwnership at h
    rw [hmod] at h
    split at h
    · exact Except.noConfusion h
    split at h
    · exact Except.noConfusion h
    split at h
    · exact Except.noConfusion h
    rename_i hnex
    split at h
    · exact Except.noConfusion h
    rename_i hdel
    rw [not_not] at hdel
    injection h with h; subst h
    have hnexf : (s.profiles newOwner).exist = false := by
      cases hb : (s.profiles newOwner).exist
      · rfl
      · exact absurd hb hnex
    have hsn : sender ≠ newOwner := fun hc => by rw [hc, hnexf] at hex; cases hex
    dsimp only
    refine ⟨by rw [upd_same]; rfl, by rw [upd_same], by rw [upd_same], ?_, ?_, ?_, ?_, ?_, ?_⟩
    · rw [upd_ne _ _ _ (Ne.symm hsn), upd_same]
    · rw [upd_ne _ _ _ (Ne.symm hsn), upd_same]
    · rw [upd_ne _ _ _ (Ne.symm hsn), upd_same]
    · rw [upd_ne _ _ _ (Ne.symm hsn), upd_same]
    · rw [upd_ne _ _ _ (Ne.symm hsn), upd_same,
        (urInv_reachable hreach).emptyLinks newOwner hnexf]
      rfl
    · rw [upd_ne _ _ _ (Ne.symm hsn)]
      split
      · rw [upd_same]
      · next hlen =>
        rw [(urInv_reachable hreach).emptySession newOwner hnexf]
        have : (s.sessionPublicKeys sender).length = 0 := by omega
        rw [List.eq_nil_of_length_eq_zero this]

/-- Witness for C2: the concrete transfer `exS5 → exS7` moves owner 1's
profile, one link and session key to address 5. -/
theorem C2_witness :
    (exS5.profiles 1).exist = true ∧
    transferProfileOwnership exS5 1 5 = .ok exS7 ∧
    (exS7.profiles 1).exist = false ∧
    exS7.profileLinks 1 = [] ∧
    exS7.sessionPublicKeys 5 = exS5.sessionPublicKeys 1 := by
  have h := (C2_transfer_atomic exS5 1 5 reach_exS5 (by decide) (by decide)).2 exS7 rfl
  exact ⟨by decide, rfl, h.1, h.2.1, h.2.2.2.2.2.2.2.2⟩

theorem stepUR_delegate_frame {s s' : URState} {op : UROp} (h : stepUR s op = .ok s')
    (d : Nat) (hne : ∀ sndr, op ≠ .removeDelegate sndr d)
    (hbound : s.delegateToOwner d ≠ 0) :
    s'.delegateToOwner d = s.delegateToOwner d := by
  cases op with
  | createProfile sender dn bio =>
    simp only [stepUR] at h
    unfold createProfile at h
    repeat (split at h; · exact Except.noConfusion h)
    injection h with h; subst h; rfl
  | createDefaultProfile sender =>
    simp only [stepUR] at h
    unfold createDefaultProfile at h
    repeat (split at h; · exact Except.noConfusion h)
    injection h with h; subst h; rfl
  | setDisplayName sender dn =>
    simp only [stepUR] at h
    unfold setDisplayName at h
    repeat (split at h; · exact Except.noConfusion h)
    injection h with h; subst h; rfl
  | setBio sender bio =>
    simp only [stepUR] at h
    unfold setBio at h
    repeat (split at h; · exact Except.noConfusion h)
    injection h with h; subst h; rfl
  | addLink sender name url =>
    simp only [stepUR] at h
    unfold addLink at h
    repeat (split at h; · exact Except.noConfusion h)
    injection h with h; subst h; rfl
  | removeLink sender index =>
    simp only [stepUR] at h
    unfold removeLink at h
    repeat (split at h; · exact Except.noConfusion h)
    injection h with h; subst h; rfl
  | clearLinks sender =>
    simp only [stepUR] at h
    unfold clearLinks at h
    repeat (split at h; · exact Except.noConfusion h)
    injection h with h; subst h; rfl
  | addDelegate sender dg =>
    simp only [stepUR] at h
    unfold addDelegate at h
    repeat (split at h; · exact Except.noConfusion h)
    rename_i hfree
    rw [not_not] at hfree
    injection h with h; subst h
    dsimp only
    exact upd_ne _ _ _ (fun hc => hbound (hc ▸ hfree))
  | removeDelegate sender dg =>
    simp only [stepUR] at h
    unfold removeDelegate at h
    repeat (split at h; · exact Except.noConfusion h)
    injection h with h; subst h
    dsimp only
    exact upd_ne _ _ _ (fun hc => (hne sender) (by rw [hc]))
  | setSessionPublicKey sender k =>
    simp only [stepUR] at h
    unfold setSessionPublicKey at h
    repeat (split at h; · exact Except.noConfusion h)
    injection h with h; subst h; rfl
  | clearSessionPublicKey sender =>
    simp only [stepUR] at h
    unfold clearSessionPublicKey at h
    repeat (split at h; · exact Except.noConfusion h)
    injection h with h; subst h; rfl
  | transferProfileOwnership sender n =>
    simp only [stepUR] at h
    unfold transferProfileOwnership at h
    repeat (split at h; · exact Except.noConfusion h)
    injection h with h; subst h; rfl

/-- Claim C3: in every reachable IdentityRegistry state each delegate
address is bound to at most one owner and no owner is a delegate of
itself; `addDelegate(d)` (called by a profile owner) fails exactly when
d is zero, d is the caller, d is already the caller's delegate, or d is
bound to any owner; and `removeDelegate` is the only operation that
clears an existing binding. -/
theorem C3_delegate_single_owner (s : URState) (hreach : ReachableUR s) :
    (∀ o1 o2 d, s.isDelegate o1 d = true → s.isDelegate o2 d = true → o1 = o2) ∧
    (∀ o, s.isDelegate o o = false) ∧
    (∀ sender d, (s.profiles sender).exist = true →
      (s.profiles sender).owner = sender →
      ((∃ e, addDelegate s sender d = .error e) ↔
        (d = 0 ∨ d = sender ∨ s.isDelegate sender d = true ∨
          s.delegateToOwner d ≠ 0))) ∧
    (∀ op s' d, stepUR s op = .ok s' → (∀ sndr, op ≠ .removeDelegate sndr d) →
      s.delegateToOwner d ≠ 0 → s'.delegateToOwner d = s.delegateToOwner d) := by
  have hI := urInv_reachable hreach
  refine ⟨?_, hI.noSelf, ?_, ?_⟩
  · intro o1 o2 d h1 h2
    rw [← hI.bindCons o1 d h1, ← hI.bindCons o2 d h2]
  · intro sender d hex how
    unfold addDelegate
    rw [onlyProfileOwner_eq_ok hex how]
    constructor
    · rintro ⟨e, he⟩
      by_cases h0 : d = 0
      · exact Or.inl h0
      rw [if_neg h0] at he
      by_cases h1 : d = sender
      · exact Or.inr (Or.inl h1)
      rw [if_neg h1] at he
      by_cases h2 : s.isDelegate sender d = true
      · exact Or.inr (Or.inr (Or.inl h2))
      rw [if_neg h2] at he
      by_cases h3 : s.delegateToOwner d ≠ 0
      · exact Or.inr (Or.inr (Or.inr h3))
      rw [if_neg h3] at he
      exact Except.noConfusion he
    · intro hc
      by_cases h0 : d = 0
      · exact ⟨"Invalid delegate address", by rw [if_pos h0]⟩
      by_cases h1 : d = sender
      · exact ⟨"Cannot delegate to self", by rw [if_neg h0, if_pos h1]⟩
      by_cases h2 : s.isDelegate sender d = true
      · exact ⟨"Already a delegate", by rw [if_neg h0, if_neg h1, if_pos h2]⟩
      by_cases h3 : s.delegateToOwner d ≠ 0
      · exact ⟨"Address is delegate for another profile",
          by rw [if_neg h0, if_neg h1, if_neg h2, if_pos h3]⟩
      rcases hc with h | h | h | h
      · exact absurd h h0
      · exact absurd h h1
      · exact absurd h h2
      · exact absurd h h3
  · intro op s' d h hne hbound
    exact stepUR_delegate_frame h d hne hbound

/-- Witness for C3 at the concrete reachable state `exS3`, where 3 is a
delegate of 1: a second `addDelegate` of 3 by owner 2 fails. -/
theorem C3_witness :
    exS3.isDelegate 1 3 = true ∧
    exS3.isDelegate 2 2 = false ∧
    (∃ e, addDelegate exS3 2 3 = .error e) := by
  have h := C3_delegate_single_owner exS3 reach_exS3
  refine ⟨by decide, h.2.1 2, ?_⟩
  exact (h.2.2.1 2 3 (by decide) (by decide)).mpr
    (Or.inr (Or.inr (Or.inr (by decide))))

/-- Claim C4: `postMessage(c)` first resolves the calling address
through the registry and rejects the call when the resolved owner is
neither participant; for a caller resolving to a participant it fails
with the validation reverts exactly when the ciphertext is empty or
longer than 2000 bytes, and on success it returns the previous message
count and appends a record with `senderOwner` the resolved owner and
`senderAddress` the literal transaction signer. -/
theorem C4_postMessage (reg : URState) (c : DMConv) (sender : Nat)
    (content : List Nat) (t : Nat) :
    ((resolveSender reg sender ≠ c.participant1 ∧
      resolveSender reg sender ≠ c.participant2) →
      postMessage reg c sender content t = .error "Not a participant") ∧
    ((resolveSender reg sender = c.participant1 ∨
      resolveSender reg sender = c.participant2) →
      ((content.length = 0 →
        postMessage reg c sender content t = .error "Message cannot be empty") ∧
       (content.length ≠ 0 → content.length > 2000 →
        postMessage reg c sender content t = .error "Message too long") ∧
       (content.length ≠ 0 → ¬ content.length > 2000 →
        postMessage reg c sender content t =
          .ok (c.messages.length,
            { c with messages := c.messages ++
                [⟨resolveSender reg sender, sender, content, t⟩] })))) := by
  unfold postMessage
  constructor
  · rintro ⟨h1, h2⟩
    rw [if_pos (not_or.mpr ⟨h1, h2⟩)]
  · intro hp
    rw [if_neg (not_not.mpr hp)]
    refine ⟨?_, ?_, ?_⟩
    · intro h0; rw [if_pos h0]
    · intro h0 hl; rw [if_neg h0, if_pos hl]
    · intro h0 hl; rw [if_neg h0, if_neg hl]

/-- Witness for C4: delegate 3 (resolving to participant 1) posts a
2000-byte ciphertext successfully; a 2001-byte one fails. -/
theorem C4_witness :
    resolveSender exS3 3 = 1 ∧
    postMessage exS3 conv0 3 (List.replicate 2000 9) 7 =
      .ok (0, ⟨1, 2, [⟨1, 3, List.replicate 2000 9, 7⟩]⟩) ∧
    postMessage exS3 conv0 3 (List.replicate 2001 9) 7 =
      .error "Message too long" := by
  have hp : resolveSender exS3 3 = conv0.participant1 ∨
      resolveSender exS3 3 = conv0.participant2 := Or.inl (by decide)
  have h := (C4_postMessage exS3 conv0 3 (List.replicate 2000 9) 7).2 hp
  have h' := (C4_postMessage exS3 conv0 3 (List.replicate 2001 9) 7).2 hp
  refine ⟨by decide, ?_, ?_⟩
  · have := h.2.2 (by rw [List.length_replicate]; omega)
      (by rw [List.length_replicate]; omega)
    exact this
  · exact h'.2.1 (by rw [List.length_replicate]; omega)
      (by rw [List.length_replicate]; omega)

/-- Witness for C1 at the concrete run `createConversation dmInit 1 2`. -/
theorem C1_witness :
    createConversation dmInit 1 2 = .ok dmEx ∧
    createConversation dmEx.2 2 1 = .error "Conversation already exists" ∧
    createConversation dmEx.2 1 2 = .error "Conversation already exists" ∧
    getConversation dmEx.2 1 2 = dmEx.1 := by
  have h := C1_conversation_pair_exclusive dmInit 1 2 (by decide) (by decide)
    (by decide) dmEx rfl
  exact ⟨rfl, h.1, h.2.1, h.2.2.1⟩

/-- Claim C5 counterexample: in the reachable state `exS6`, address 1
owns a profile but has also been registered as a delegate of owner 2, so
`resolveToOwner 1` returns 2, not 1 — the delegate lookup takes
precedence, so resolution is not idempotent on such owners. -/
theorem C5_counterexample :
    ReachableUR exS6 ∧ (exS6.profiles 1).exist = true ∧
    resolveToOwner exS6 1 ≠ 1 ∧ resolveToOwner exS6 1 = 2 :=
  ⟨reach_exS6, by decide, by decide, by decide⟩

/-- Claim C5 (amended): `resolveToOwner` is idempotent on profile owners
that are not registered as a delegate of another profile: for such an
address a it returns a itself; for any address registered as a delegate
it returns the delegating owner (even when the delegate itself owns a
profile), and for an address with neither binding nor profile it returns
the zero address. -/
theorem C5_resolve_idempotent (s : URState) :
    (∀ a, (s.profiles a).exist = true → s.delegateToOwner a = 0 →
      resolveToOwner s a = a) ∧
    (∀ a, s.delegateToOwner a ≠ 0 → resolveToOwner s a = s.delegateToOwner a) ∧
    (∀ a, s.delegateToOwner a = 0 → (s.profiles a).exist = false →
      resolveToOwner s a = 0) := by
  refine ⟨?_, ?_, ?_⟩
  · intro a hex hnd
    unfold resolveToOwner
    rw [if_neg (not_not.mpr hnd), if_pos hex]
  · intro a hd
    unfold resolveToOwner
    rw [if_pos hd]
  · intro a hnd hex
    unfold resolveToOwner
    rw [if_neg (not_not.mpr hnd), if_neg (by rw [hex]; exact Bool.noConfusion)]

/-- Witness for C5 (amended) at the reachable state `exS5`: owner 1 is
not anyone's delegate there and resolves to itself; delegate 3 resolves
to owner 1. -/
theorem C5_witness :
    (exS5.profiles 1).exist = true ∧ exS5.delegateToOwner 1 = 0 ∧
    resolveToOwner exS5 1 = 1 ∧ resolveToOwner exS5 3 = exS5.delegateToOwner 3 := by
  have h := C5_resolve_idempotent exS5
  exact ⟨by decide, by decide, h.1 1 (by decide) (by decide),
    h.2.1 3 (by decide)⟩

/-- Claim C6 counterexample: in the reachable registry state `exS3`,
address 3 is a delegate resolving to owner 1, yet when 3 calls
`createConversation(2)` the conversation is keyed under the literal pair
(3,2): the lookup for the resolved owner pair (1,2) stays empty.  The
directory never resolves the caller before computing the pair key. -/
theorem C6_counterexample :
    ReachableUR exS3 ∧
    resolveToOwner exS3 3 = 1 ∧
    createConversation dmInit 3 2 = .ok dmEx2 ∧
    dmEx2.1 ≠ 0 ∧
    getConversation dmEx2.2 3 2 = dmEx2.1 ∧
    getConversation dmEx2.2 1 2 = 0 :=
  ⟨reach_exS3, by decide, rfl, by decide, by decide, by decide⟩

/-- Claim C6 (amended): `createConversation(other)` does not resolve the
caller; the conversation and its duplicate check are keyed on the sorted
pair of the literal caller address and `other`.  It succeeds exactly when
`other` is non-zero, `other` differs from the literal caller, no
conversation for that literal pair exists, and the caller is non-zero;
on success the new conversation is indexed under both literal
participants. -/
theorem C6_create_literal_sender (s : DMRegState) (sender other : Nat) :
    ((∃ r, createConversation s sender other = .ok r) ↔
      (other ≠ 0 ∧ other ≠ sender ∧
       s.conversationLookup (getPairHash sender other) = 0 ∧ sender ≠ 0)) ∧
    (∀ r, createConversation s sender other = .ok r →
      getConversation r.2 sender other = r.1 ∧ r.1 ≠ 0 ∧
      r.2.userConversations sender = s.userConversations sender ++ [r.1] ∧
      r.2.userConversations other = s.userConversations other ++ [r.1]) := by
  constructor
  · constructor
    · rintro ⟨r, hr⟩
      unfold createConversation at hr
      by_cases h1 : other = 0
      · rw [if_pos h1] at hr; exact Except.noConfusion hr
      rw [if_neg h1] at hr
      by_cases h2 : other = sender
      · rw [if_pos h2] at hr; exact Except.noConfusion hr
      rw [if_neg h2] at hr
      by_cases h3 : s.conversationLookup (getPairHash sender other) ≠ 0
      · rw [if_pos h3] at hr; exact Except.noConfusion hr
      rw [if_neg h3] at hr
      by_cases h4 : sender = 0
      · rw [if_pos h4] at hr; exact Except.noConfusion hr
      rw [not_not] at h3
      exact ⟨h1, h2, h3, h4⟩
    · rintro ⟨h1, h2, h3, h4⟩
      unfold createConversation
      rw [if_neg h1, if_neg h2, if_neg (not_not.mpr h3), if_neg h4]
      exact ⟨_, rfl⟩
  · intro r hr
    unfold createConversation at hr
    split at hr
    · exact Except.noConfusion hr
    split at hr
    · exact Except.noConfusion hr
    rename_i h2
    split at hr
    · exact Except.noConfusion hr
    split at hr
    · exact Except.noConfusion hr
    injection hr with hr
    subst hr
    dsimp only
    refine ⟨?_, Nat.succ_ne_zero s.nonce, ?_, ?_⟩
    · unfold getConversation
      dsimp only
      rw [upd_same]
    · rw [upd_ne _ _ _ (fun hc => h2 hc.symm), upd_same]
    · rw [upd_same, upd_ne _ _ _ h2]

/-- Witness for C6 (amended) at the concrete run
`createConversation dmInit 1 2`. -/
theorem C6_witness :
    createConversation dmInit 1 2 = .ok dmEx ∧
    getConversation dmEx.2 1 2 = dmEx.1 ∧
    dmEx.2.userConversations 1 = [dmEx.1] ∧
    dmEx.2.userConversations 2 = [dmEx.1] := by
  have h := (C6_create_literal_sender dmInit 1 2).2 dmEx rfl
  refine ⟨rfl, h.1, ?_, ?_⟩
  · rw [h.2.2.1]; rfl
  · rw [h.2.2.2]; rfl

/-- Claim C7 counterexample: `getMessages` can fail — on a conversation
holding two messages, `getMessages 1 (2^256 - 1)` makes the checked
`uint256` addition `startIndex + count` overflow, so the call reverts
instead of clamping. -/
theorem C7_counterexample :
    conv2.messages.length = 2 ∧
    getMessages conv2 1 (U256 - 1) = .error "arithmetic overflow" :=
  ⟨by decide, by rfl⟩

/-- Claim C7 (amended): `getMessage(index)` fails exactly when the index
is at or beyond the message count, while `getLatestMessages` never fails
(an oversized n returns every message, n = 0 returns the empty sequence)
and `getMessages(start,count)` never fails **provided the checked
addition start + count stays below 2^256**: an out-of-range start yields
the empty sequence and an oversized count is clamped; when start is in
range and start + count ≥ 2^256 the call reverts with an arithmetic
overflow. -/
theorem C7_read_asymmetry (c : DMConv) :
    (∀ i, (∃ e, getMessage c i = .error e) ↔ c.messages.length ≤ i) ∧
    (∀ i, i < c.messages.length →
      getMessage c i = .ok (c.messages.getD i default)) ∧
    (∀ start count, start ≥ c.messages.length →
      getMessages c start count = .ok []) ∧
    (∀ start count, start < c.messages.length → start + count < U256 →
      getMessages c start count = .ok ((c.messages.drop start).take count)) ∧
    (∀ start count, start < c.messages.length → start + count ≥ U256 →
      getMessages c start count = .error "arithmetic overflow") ∧
    (∀ n, c.messages.length ≤ n → getLatestMessages c n = c.messages) ∧
    (getLatestMessages c 0 = []) ∧
    (∀ n, getLatestMessages c n = c.messages.drop (c.messages.length - n)) := by
  refine ⟨?_, ?_, ?_, ?_, ?_, ?_, ?_, ?_⟩
  · intro i
    constructor
    · rintro ⟨e, he⟩
      unfold getMessage at he
      by_cases hi : i < c.messages.length
      · rw [if_neg (not_not.mpr hi)] at he
        exact Except.noConfusion he
      · exact Nat.not_lt.mp hi
    · intro hle
      exact ⟨_, by unfold getMessage; rw [if_pos (Nat.not_lt.mpr hle)]⟩
  · intro i hi
    unfold getMessage
    rw [if_neg (not_not.mpr hi)]
  · intro start count hge
    unfold getMessages
    rw [if_pos hge]
  · intro start count hlt hov
    unfold getMessages
    rw [if_neg (Nat.not_le.mpr hlt), if_neg (Nat.not_le.mpr hov)]
    refine congrArg Except.ok ?_
    rw [List.take_eq_take]
    rw [List.length_drop]
    omega
  · intro start count hlt hov
    unfold getMessages
    rw [if_neg (Nat.not_le.mpr hlt), if_pos hov]
  · intro n hle
    unfold getLatestMessages
    rw [Nat.min_eq_right hle, Nat.sub_self, List.drop_zero]
  · unfold getLatestMessages
    rw [Nat.min_eq_left (Nat.zero_le _), Nat.sub_zero, List.drop_length]
  · intro n
    unfold getLatestMessages
    have harith : c.messages.length - min n c.messages.length =
        c.messages.length - n := by omega
    rw [harith]

/-- Witness for C7 (amended) on the two-message conversation `conv2`. -/
theorem C7_witness :
    (∃ e, getMessage conv2 5 = .error e) ∧
    getMessage conv2 1 = .ok (conv2.messages.getD 1 default) ∧
    getMessages conv2 5 3 = .ok [] ∧
    getMessages conv2 0 5 = .ok ((conv2.messages.drop 0).take 5) ∧
    getLatestMessages conv2 5 = conv2.messages ∧
    getLatestMessages conv2 0 = [] := by
  have h := C7_read_asymmetry conv2
  exact ⟨(h.1 5).mpr (by decide), h.2.1 1 (by decide), h.2.2.1 5 3 (by decide),
    h.2.2.2.1 0 5 (by decide) (by decide), h.2.2.2.2.2.1 5 (by decide),
    h.2.2.2.2.2.2.1⟩

theorem swapRemove_getD_ne {α : Type} (l : List α) (i j : Nat) (v dflt : α)
    (hj : j < l.length - 1) (hne : j ≠ i) :
    ((l.set i v).dropLast).getD j dflt = l.getD j dflt := by
  have hj1 : j < ((l.set i v).dropLast).length := by
    simp only [List.length_dropLast, List.length_set]; omega
  have hj2 : j < l.length := by omega
  rw [List.getD_eq_getElem _ _ hj1, List.getD_eq_getElem _ _ hj2]
  simp only [List.getElem_dropLast, List.getElem_set]
  rw [if_neg (fun hc => hne hc.symm)]

theorem swapRemove_getD_at {α : Type} (l : List α) (i : Nat) (v dflt : α)
    (hi : i < l.length - 1) :
    ((l.set i v).dropLast).getD i dflt = v := by
  have h1 : i < ((l.set i v).dropLast).length := by
    simp only [List.length_dropLast, List.length_set]; omega
  rw [List.getD_eq_getElem _ _ h1]
  simp only [List.getElem_dropLast]
  simp [List.getElem_set_self]

theorem swapRemove_perm {α : Type} (l : List α) (i : Nat) (dflt : α)
    (hi : i < l.length) :
    ((l.set i (l.getD (l.length - 1) dflt)).dropLast).Perm (l.eraseIdx i) := by
  rcases Nat.lt_or_ge i (l.length - 1) with hlt | hge
  · rw [List.set_eq_take_cons_drop _ hi, List.dropLast_append_cons,
      List.eraseIdx_eq_take_drop_succ]
    cases hdrop : l.drop (i + 1) with
    | nil =>
      have := congrArg List.length hdrop
      simp only [List.length_drop, List.length_nil] at this
      omega
    | cons b t =>
      refine List.Perm.append_left _ ?_
      have hbt : b :: t ≠ ([] : List α) := by simp
      have hgl : some ((b :: t).getLast hbt) = l[l.length - 1]? := by
        rw [← List.getLast?_eq_getLast (b :: t) hbt, List.getLast?_eq_getElem?,
          ← hdrop, List.getElem?_drop]
        congr 1
        simp only [List.length_drop]
        omega
      have hv : l.getD (l.length - 1) dflt = (b :: t).getLast hbt := by
        rw [List.getD_eq_getD_get?, List.get?_eq_getElem?, ← hgl]
        rfl
      rw [hv, List.dropLast_cons₂]
      have hperm : (((b :: t).getLast hbt :: List.dropLast (b :: t))).Perm
          (List.dropLast (b :: t) ++ [(b :: t).getLast hbt]) :=
        @List.perm_append_comm α [(b :: t).getLast hbt] (List.dropLast (b :: t))
      have h2 : List.dropLast (b :: t) ++ [(b :: t).getLast hbt] = b :: t :=
        List.dropLast_concat_getLast hbt
      exact hperm.trans (by rw [h2])
  · have hieq : i = l.length - 1 := by omega
    subst hieq
    have hself : l.set (l.length - 1) (l.getD (l.length - 1) dflt) = l := by
      apply List.ext_getElem
      · simp
      · intro j h1 h2
        rw [List.getElem_set]
        split
        · next hc =>
          subst hc
          rw [List.getD_eq_getElem _ _ (by omega : l.length - 1 < l.length)]
        · rfl
    have heq : l.length - 1 + 1 = l.length := by omega
    rw [hself, List.eraseIdx_eq_take_drop_succ, heq, List.drop_length,
      List.append_nil, List.dropLast_eq_take]

/-- Claim C8: in every reachable state a profile's link list never holds
more than 10 entries (`addLink` fails on a full list), and a successful
`removeLink(i)` replaces the entry at i with the former last entry,
shortens the list by one, leaves all other entries unchanged, and the
resulting list is exactly the old list minus the removed entry as a
multiset (stated as a permutation with `eraseIdx`). -/
theorem C8_links_swap_remove (s : URState) (hreach : ReachableUR s) :
    (∀ a, (s.profileLinks a).length ≤ 10) ∧
    (∀ sender name url, (s.profiles sender).exist = true →
      (s.profiles sender).owner = sender →
      name.length ≠ 0 → name.length ≤ 50 → url.length ≠ 0 → url.length ≤ 200 →
      (s.profileLinks sender).length = 10 →
      addLink s sender name url = .error "Max 10 links") ∧
    (∀ sender i s', removeLink s sender i = .ok s' →
      i < (s.profileLinks sender).length ∧
      (s'.profileLinks sender).length = (s.profileLinks sender).length - 1 ∧
      (∀ j, j < (s'.profileLinks sender).length → j ≠ i →
        (s'.profileLinks sender).getD j default =
          (s.profileLinks sender).getD j default) ∧
      (i < (s'.profileLinks sender).length →
        (s'.profileLinks sender).getD i default =
          (s.profileLinks sender).getD
            ((s.profileLinks sender).length - 1) default) ∧
      (s'.profileLinks sender).Perm ((s.profileLinks sender).eraseIdx i)) := by
  refine ⟨(urInv_reachable hreach).linksBound, ?_, ?_⟩
  · intro sender name url hex how h1 h2 h3 h4 hfull
    unfold addLink
    rw [onlyProfileOwner_eq_ok hex how]
    rw [if_neg h1, if_neg (by omega), if_neg h3, if_neg (by omega),
      if_pos (by omega)]
  · intro sender i s' h
    unfold removeLink at h
    split at h
    · exact Except.noConfusion h
    split at h
    · exact Except.noConfusion h
    rename_i hidx
    rw [not_not] at hidx
    injection h with h; subst h
    refine ⟨hidx, ?_, ?_, ?_, ?_⟩
    · dsimp only
      rw [upd_same]
      simp only [List.length_dropLast, List.length_set]
    · intro j hj hne
      dsimp only at hj ⊢
      rw [upd_same] at hj ⊢
      refine swapRemove_getD_ne _ _ _ _ _ ?_ hne
      simpa using hj
    · intro hi2
      dsimp only at hi2 ⊢
      rw [upd_same] at hi2 ⊢
      refine swapRemove_getD_at _ _ _ _ ?_
      simpa using hi2
    · dsimp only
      rw [upd_same]
      exact swapRemove_perm _ i default hidx

/-- Witness for C8: in `exS4b` owner 1 has two links; removing index 0
swaps in the last link and shortens the list. -/
theorem C8_witness :
    (∀ a, (exS4b.profileLinks a).length ≤ 10) ∧
    removeLink exS4b 1 0 = .ok exS8 ∧
    (exS8.profileLinks 1).length = 1 ∧
    (exS8.profileLinks 1).getD 0 default = (exS4b.profileLinks 1).getD 1 default ∧
    (exS8.profileLinks 1).Perm ((exS4b.profileLinks 1).eraseIdx 0) := by
  have h := C8_links_swap_remove exS4b reach_exS4b
  have h2 := h.2.2 1 0 exS8 rfl
  exact ⟨h.1, rfl, by decide, h2.2.2.2.1 (by decide), h2.2.2.2.2⟩

/-- Claim C9: `transferProfileOwnership` moves only profile data and
leaves both delegate stores untouched: every delegate binding survives
the transfer verbatim, so a delegate d of the old owner still resolves
(`_resolveSender`) to the old owner — an identity that now has no
profile — and the new owner acquires no delegates. -/
theorem C9_transfer_delegate_frame (s : URState) (sender newOwner : Nat)
    (hreach : ReachableUR s) (s' : URState)
    (h : transferProfileOwnership s sender newOwner = .ok s') :
    (∀ o d, s'.isDelegate o d = s.isDelegate o d) ∧
    (∀ d, s'.delegateToOwner d = s.delegateToOwner d) ∧
    (∀ d, s.isDelegate sender d = true →
      s'.isDelegate sender d = true ∧
      s'.delegateToOwner d = sender ∧
      (s'.profiles sender).exist = false ∧
      resolveSender s' d = sender) ∧
    (∀ d, s'.isDelegate newOwner d = s.isDelegate newOwner d) := by
  unfold transferProfileOwnership at h
  split at h
  · exact Except.noConfusion h
  next u hown =>
  obtain ⟨hex, -⟩ := onlyProfileOwner_ok hown
  split at h
  · exact Except.noConfusion h
  split at h
  · exact Except.noConfusion h
  split at h
  · exact Except.noConfusion h
  injection h with h; subst h
  have hI := urInv_reachable hreach
  refine ⟨fun o d => rfl, fun d => rfl, ?_, fun d => rfl⟩
  intro d hd
  have hbind := hI.bindCons sender d hd
  have hnz := hI.ownerNZ sender d hd
  refine ⟨hd, hbind, ?_, ?_⟩
  · dsimp only
    rw [upd_same]
    rfl
  · unfold resolveSender
    dsimp only
    rw [hbind, if_pos hnz]

/-- Witness for C9: after the concrete transfer `exS5 → exS7` of owner
1's profile to address 5, delegate 3 still resolves to the deleted
identity 1, and 5 has no delegates. -/
theorem C9_witness :
    exS5.isDelegate 1 3 = true ∧
    transferProfileOwnership exS5 1 5 = .ok exS7 ∧
    exS7.isDelegate 1 3 = true ∧
    exS7.delegateToOwner 3 = 1 ∧
    (exS7.profiles 1).exist = false ∧
    resolveSender exS7 3 = 1 ∧
    (∀ d, exS7.isDelegate 5 d = exS5.isDelegate 5 d) := by
  have h := C9_transfer_delegate_frame exS5 1 5 reach_exS5 exS7 rfl
  have h3 := h.2.2.1 3 (by decide)
  exact ⟨by decide, rfl, h3.1, h3.2.1, h3.2.2.1, h3.2.2.2, h.2.2.2⟩

theorem maskBytes_length (key nonce : Nat) (l : List Nat) (i : Nat) :
    (maskBytes key nonce l i).length = l.length := by
  induction l generalizing i with
  | nil => rfl
  | cons b t ih => simp only [maskBytes, List.length_cons, ih]

theorem getD_set_self {α : Type} (l : List α) (k : Nat) (v dflt : α)
    (hk : k < l.length) : (l.set k v).getD k dflt = v := by
  rw [List.getD_eq_getElem _ _ (by simpa using hk)]
  exact List.getElem_set_self _

/-- Claim C10 (spec-modelled): decrypting `encrypt(pt, A_priv, B_pub)`
with the counterpart keys B_priv and A_pub yields exactly the original
plaintext — both directions derive the same ECDH shared secret — and
flipping any single position of the ciphertext blob makes decryption
fail deterministically with the distinct "cannot decrypt" result
(`none`) instead of returning garbage. -/
theorem C10_encrypt_roundtrip_tamper (pt : List Nat) (aPriv bPriv nonce : Nat)
    (hlen : pt.length ≤ 1998) :
    decryptBytes (encryptBytes pt aPriv (pubKey bPriv) nonce) bPriv
      (pubKey aPriv) = some pt ∧
    (∀ j v, j < (encryptBytes pt aPriv (pubKey bPriv) nonce).length →
      v ≠ (encryptBytes pt aPriv (pubKey bPriv) nonce).getD j 0 →
      decryptBytes ((encryptBytes pt aPriv (pubKey bPriv) nonce).set j v)
        bPriv (pubKey aPriv) = none) := by
  have hkey : kdf (sharedSecret bPriv (pubKey aPriv)) =
      kdf (sharedSecret aPriv (pubKey bPriv)) := by
    rw [sharedSecret_comm]
  constructor
  · unfold encryptBytes decryptBytes
    dsimp only
    rw [hkey, if_pos rfl, maskBytes_maskBytes]
  · intro j v hj hv
    unfold encryptBytes at hj hv ⊢
    dsimp only at hj hv ⊢
    cases j with
    | zero =>
      simp only [List.getD_cons_zero] at hv
      unfold decryptBytes
      dsimp only [List.set]
      rw [hkey]
      rw [if_neg ?_]
      intro hc
      unfold mkTag at hc
      rw [Nat.pair_eq_pair, Nat.pair_eq_pair] at hc
      exact hv hc.2.1.symm
    | succ j1 =>
      cases j1 with
      | zero =>
        simp only [List.getD_cons_succ, List.getD_cons_zero] at hv
        unfold decryptBytes
        dsimp only [List.set]
        rw [hkey]
        rw [if_neg ?_]
        intro hc
        exact hv hc
      | succ k =>
        simp only [List.getD_cons_succ] at hv
        unfold decryptBytes
        dsimp only [List.set]
        rw [hkey]
        rw [if_neg ?_]
        intro hc
        unfold mkTag at hc
        rw [Nat.pair_eq_pair, Nat.pair_eq_pair] at hc
        have hct := encodeBytes_inj hc.2.2
        have hk : k <
            (maskBytes (kdf (sharedSecret aPriv (pubKey bPriv))) nonce pt 0).length := by
          simp only [List.length_cons] at hj
          omega
        have hvv := getD_set_self
          (maskBytes (kdf (sharedSecret aPriv (pubKey bPriv))) nonce pt 0) k v 0 hk
        rw [← hct] at hvv
        exact hv hvv.symm

/-- Witness for C10 at the concrete plaintext "hi" and keys 3, 5. -/
theorem C10_witness :
    ([104, 105] : List Nat).length ≤ 1998 ∧
    decryptBytes (encryptBytes [104, 105] 3 (pubKey 5) 9) 5 (pubKey 3) =
      some [104, 105] := by
  have h := C10_encrypt_roundtrip_tamper [104, 105] 3 5 9 (by decide)
  exact ⟨by decide, h.1⟩

end Plaza
